import Mathlib

/-!
Verification development for the folder-synchronization engine of the
`anything-obsidian` plugin (`src/main.ts`).  The relevant parts of the
program are shallowly embedded: the name-mangling and key functions, the
inventory builders, the pure reconciler `compareFiles`, and the effectful
executors (`syncFolders`, `processCreations`, `processUpdates`,
`processDeletions`, `uploadFile`, ...) modelled as functions producing the
list of remote HTTP operations they issue, driven by an environment that
fixes the outcome of each network call.
-/

namespace AnythingObsidian

/-! ## Name mangling (`getMangledFileName`, `getRemotePathKey`) -/

/-- Character-level step of `file.path.replace(/\//g, '_-_')`: a `'/'` is
replaced by the three characters `_-_`, every other character is kept. -/
def mangleChar (c : Char) : List Char :=
  if c = '/' then ['_', '-', '_'] else [c]

/-- Replace every `'/'` in a character list by `_-_` (the global regex
replace over the whole string). -/
def mangleChars : List Char → List Char
  | [] => []
  | c :: cs => mangleChar c ++ mangleChars cs

/-- Embeds `getMangledFileName` of `src/main.ts` (line 327):
`file.path.replace(/\//g, '_-_')`, applied to the file's vault path. -/
def getMangledFileName (path : String) : String :=
  String.mk (mangleChars path.data)

/-- Embeds `getRemotePathKey` of `src/main.ts` (line 331):
`` `${this.settings.remoteBaseFolder}/${mangledName}` ``. -/
def getRemotePathKey (remoteBaseFolder mangledName : String) : String :=
  remoteBaseFolder ++ "/" ++ mangledName

/-! ## Data model: inventories as JavaScript `Map`s

A JavaScript `Map` is modelled as an association list with unique keys,
in insertion order.  `findRec` is `Map.get` (and `Map.has` via `isSome`);
`mapSet` is `Map.set` (overwrite in place if the key exists, append
otherwise). -/

/-- Value stored by `getLocalFiles` for each key:
`{ path: file.path, mtime: file.stat.mtime }`. -/
structure LocalRec where
  path : String
  mtime : Int
deriving DecidableEq

/-- A remote document as reported by the folder listing
(`GET /api/v1/documents/folder/...`): `getRemoteFileList` stores the whole
`doc` object; `compareFiles` reads `doc.published` (modelled already
converted by `new Date(...).getTime()` as the integer `publishedTime`) and
`processUpdates` / `processDeletions` read `doc.name`; the map key is built
from `doc.title`. -/
structure RemoteDoc where
  title : String
  name : String
  publishedTime : Int
deriving DecidableEq

/-- A file of the vault as seen by `this.app.vault.getMarkdownFiles()`:
its path and its modification time `file.stat.mtime`. -/
structure VaultFile where
  path : String
  mtime : Int
deriving DecidableEq

/-- Embeds `Map.get` (first entry with the given key; entries of a
JavaScript `Map` have unique keys, so first/last is irrelevant). -/
def findRec {β : Type} : List (String × β) → String → Option β
  | [], _ => none
  | kv :: rest, k => if kv.1 = k then some kv.2 else findRec rest k

/-- Key list of a map, `Map.keys()` in insertion order. -/
def keys {β : Type} (m : List (String × β)) : List String :=
  m.map Prod.fst

/-- Embeds `Map.set`: overwrite the entry in place when the key is already
present, append a fresh entry otherwise. -/
def mapSet {β : Type} (m : List (String × β)) (k : String) (v : β) : List (String × β) :=
  if (findRec m k).isSome then
    m.map (fun kv => if kv.1 = k then (k, v) else kv)
  else m ++ [(k, v)]

/-! ## Local inventory (`getLocalFiles`) -/

/-- Embeds JavaScript `s.startsWith(pre)`: `pre` is a prefix of `s`. -/
def strStartsWith (s pre : String) : Bool :=
  pre.data.isPrefixOf s.data

/-- Eligibility test of `getLocalFiles` (line 366):
`syncedFolders.some(folder => folder === '.' || file.path.startsWith(folder + '/'))`. -/
def isInSyncedFolder (syncedFolders : List String) (path : String) : Bool :=
  syncedFolders.any (fun folder => folder == "." || strStartsWith path (folder ++ "/"))

/-- Key under which `getLocalFiles` records a vault file:
`getRemotePathKey(getMangledFileName(file))`. -/
def localKeyOf (remoteBaseFolder : String) (f : VaultFile) : String :=
  getRemotePathKey remoteBaseFolder (getMangledFileName f.path)

/-- Record `{ path: file.path, mtime: file.stat.mtime }` stored for a file. -/
def localRecOf (f : VaultFile) : LocalRec :=
  { path := f.path, mtime := f.mtime }

/-- Loop body accumulator of `getLocalFiles`: walk the vault files in order
and `Map.set` each eligible one. -/
def getLocalFilesAux (remoteBaseFolder : String) (syncedFolders : List String) :
    List VaultFile → List (String × LocalRec) → List (String × LocalRec)
  | [], localFiles => localFiles
  | f :: rest, localFiles =>
    getLocalFilesAux remoteBaseFolder syncedFolders rest
      (if isInSyncedFolder syncedFolders f.path then
        mapSet localFiles (localKeyOf remoteBaseFolder f) (localRecOf f)
      else localFiles)

/-- Embeds `getLocalFiles` of `src/main.ts` (lines 361-380): scan every
vault markdown file, keep those inside a synced folder, and key them by
the mangled remote path. -/
def getLocalFiles (remoteBaseFolder : String) (syncedFolders : List String)
    (allFiles : List VaultFile) : List (String × LocalRec) :=
  getLocalFilesAux remoteBaseFolder syncedFolders allFiles []

/-- Rendering of the claim's own wording of folder matching (used only to
compare the specification text against the code): folder `"."` matches
every file, any other `F` matches a path equal to `F` or prefixed by
`F + "/"`. -/
def claimFolderMatches (folder path : String) : Bool :=
  folder == "." || path == folder || strStartsWith path (folder ++ "/")

/-! ## Reconciler (`compareFiles`) -/

/-- Result sets of `compareFiles`; JavaScript `Set`s of mangled keys,
modelled as lists in insertion order. -/
structure CompareResult where
  toCreate : List String
  toUpdate : List String
  toDelete : List String
deriving DecidableEq

/-- Update test of `compareFiles` (lines 390-394) for one local entry
already present remotely: `file.mtime > new Date(remoteFile.published).getTime()`
(the `Date` conversion is modelled by the integer field `publishedTime`). -/
def updatePred (remoteFiles : List (String × RemoteDoc)) (kv : String × LocalRec) : Bool :=
  match findRec remoteFiles kv.1 with
  | some remoteFile => decide (remoteFile.publishedTime < kv.2.mtime)
  | none => false

/-- Embeds `compareFiles` of `src/main.ts` (lines 382-407): local keys
missing remotely go to `toCreate`; local keys present remotely with a
strictly newer local `mtime` go to `toUpdate`; remote keys missing locally
go to `toDelete`. -/
def compareFiles (localFiles : List (String × LocalRec))
    (remoteFiles : List (String × RemoteDoc)) : CompareResult :=
  { toCreate := (localFiles.filter (fun kv => (findRec remoteFiles kv.1).isNone)).map Prod.fst
    toUpdate := (localFiles.filter (fun kv => updatePred remoteFiles kv)).map Prod.fst
    toDelete := (remoteFiles.filter (fun kv => (findRec localFiles kv.1).isNone)).map Prod.fst }

/-! ## Effectful layer: remote operations as traces

Every method that talks to the AnythingLLM server is modelled as a
function returning the list of HTTP operations it issues, in order.  An
`Env` fixes the outcome of the calls whose result steers control flow
(the folder listing and the document upload); all other calls catch their
errors locally and never change which further operations are issued. -/

/-- Conflict policy `updateHandling` of the settings. -/
inductive UpdateHandling where
  | keepInWorkspace
  | archive
  | delete
deriving DecidableEq

/-- The engine-relevant part of `AnythingObsidianSettings` (connection
fields and UI flags are irrelevant to which remote operations happen). -/
structure Settings where
  selectedWorkspaces : List String
  syncedFolders : List String
  autoDelete : Bool
  updateHandling : UpdateHandling
  remoteBaseFolder : String
deriving DecidableEq

/-- One remote HTTP operation issued by the plugin. -/
inductive Op where
  | createFolder (name : String)
  | listFolder (name : String)
  | uploadDocument (folder fileName : String)
  | addEmbedding (slug docPath : String)
  | removeEmbeddings (slug : String) (docPaths : List String)
  | moveFiles (files : List (String × String))
  | removeFolder (name : String)
deriving DecidableEq

/-- Outcome of the `POST /api/v1/document/upload` request issued by
`uploadFile`: either the `fetch` throws, or a response arrives with
`response.ok`, `responseData.success` and `responseData.documents`
(document names). -/
inductive UploadOutcome where
  | thrown
  | response (ok success : Bool) (documents : List String)

/-- Environment fixing the outcomes of the control-flow-relevant calls:
the folder listing of `getRemoteFileList` (either a thrown transport
error, or a response with an HTTP status and a document list) and, per
mangled file name, the outcome of the upload in `uploadFile`. -/
structure Env where
  listFolderResult : Except Unit (Nat × List RemoteDoc)
  uploadOutcome : String → UploadOutcome

/-- Upload-request failure as described by `uploadFile` (lines 188-211):
a thrown transport error, a non-OK HTTP status, or a response body with
`success` false. -/
def uploadRequestFailed : UploadOutcome → Bool
  | UploadOutcome.thrown => true
  | UploadOutcome.response ok success _ => !ok || !success

/-- Embeds `uploadFile` of `src/main.ts` (lines 177-212) as its operation
trace: ensure the base folder exists, issue the upload, and only when the
upload response is OK and successful attach the first returned document
name to every workspace in the list.  An empty `documents` array makes
`responseData.documents[0].name` throw inside the `try`, so no attach
happens either. -/
def uploadFileTrace (env : Env) (s : Settings) (workspaces : List String)
    (filePath : String) : List Op :=
  [Op.createFolder s.remoteBaseFolder,
   Op.uploadDocument s.remoteBaseFolder (getMangledFileName filePath)] ++
  (match env.uploadOutcome (getMangledFileName filePath) with
   | UploadOutcome.thrown => []
   | UploadOutcome.response ok success documents =>
     if ok && success then
       match documents with
       | [] => []
       | newDocumentName :: _ =>
         workspaces.map (fun slug =>
           Op.addEmbedding slug (s.remoteBaseFolder ++ "/" ++ newDocumentName))
     else [])

/-- Embeds `removeDocumentsFromWorkspace` (lines 286-305): nothing is
issued for an empty path list, otherwise one `update-embeddings` request
with the `deletes` array. -/
def removeDocumentsTrace (slug : String) (documentPaths : List String) : List Op :=
  if documentPaths = [] then [] else [Op.removeEmbeddings slug documentPaths]

/-- Last path segment, `path.split('/').pop()`. -/
def lastSegment (path : String) : String :=
  (path.split (fun c => c = '/')).getLastD ""

/-- Embeds `moveFilesToFolder` (lines 242-263): nothing for an empty list,
otherwise ensure the target folder exists and issue one `move-files`
request carrying every `{from, to}` pair. -/
def moveFilesToFolderTrace (remotePaths : List String) (targetFolder : String) : List Op :=
  if remotePaths = [] then [] else
  [Op.createFolder targetFolder,
   Op.moveFiles (remotePaths.map (fun path => (path, targetFolder ++ "/" ++ lastSegment path)))]

/-- Embeds `moveFilesToTrash` (line 234). -/
def moveFilesToTrashTrace (remotePaths : List String) : List Op :=
  moveFilesToFolderTrace remotePaths "_trash"

/-- Embeds `moveFilesToArchive` (line 238). -/
def moveFilesToArchiveTrace (remotePaths : List String) : List Op :=
  moveFilesToFolderTrace remotePaths "_archive"

/-- The `(localFile, remote path)` pairs collected by the first loop of
`processUpdates` (lines 136-145): keys missing from either inventory are
skipped, otherwise the vault file at `localFile.path` is queued for upload
and `` `${remoteBaseFolder}/${remoteFile.name}` `` queued for disposal. -/
def updatePairs (s : Settings) (toUpdate : List String)
    (localFiles : List (String × LocalRec)) (remoteFiles : List (String × RemoteDoc)) :
    List (String × String) :=
  toUpdate.filterMap (fun key =>
    match findRec localFiles key, findRec remoteFiles key with
    | some localFile, some remoteFile =>
      some (localFile.path, s.remoteBaseFolder ++ "/" ++ remoteFile.name)
    | _, _ => none)

/-- Embeds `processUpdates` of `src/main.ts` (lines 132-175) as its
operation trace: upload every new version first, then — unless the policy
is `keep-in-workspace` — remove the old embeddings from every selected
workspace and move the old files to `_archive` (policy `archive`) or
`_trash` (policy `delete`).  The vault lookup
`getAbstractFileByPath(localFile.path)` returns the file whose path the
inventory recorded. -/
def processUpdatesTrace (env : Env) (s : Settings) (toUpdate : List String)
    (localFiles : List (String × LocalRec)) (remoteFiles : List (String × RemoteDoc)) :
    List Op :=
  if toUpdate = [] then [] else
  ((updatePairs s toUpdate localFiles remoteFiles).map Prod.fst).flatMap
      (fun filePath => uploadFileTrace env s s.selectedWorkspaces filePath) ++
  (if s.updateHandling = UpdateHandling.keepInWorkspace then [] else
    s.selectedWorkspaces.flatMap
      (fun slug => removeDocumentsTrace slug
        ((updatePairs s toUpdate localFiles remoteFiles).map Prod.snd)) ++
    (if s.updateHandling = UpdateHandling.archive then
      moveFilesToArchiveTrace ((updatePairs s toUpdate localFiles remoteFiles).map Prod.snd)
    else []) ++
    (if s.updateHandling = UpdateHandling.delete then
      moveFilesToTrashTrace ((updatePairs s toUpdate localFiles remoteFiles).map Prod.snd)
    else []))

/-- Embeds `processCreations` (lines 122-130): upload each file of
`toCreate` (looked up in the local inventory) and attach it to the
selected workspaces. -/
def processCreationsTrace (env : Env) (s : Settings) (toCreate : List String)
    (localFiles : List (String × LocalRec)) : List Op :=
  toCreate.flatMap (fun path =>
    match findRec localFiles path with
    | some localFile => uploadFileTrace env s s.selectedWorkspaces localFile.path
    | none => [])

/-- Embeds `processDeletions` (lines 265-284): collect the remote paths of
`toDelete`, remove their embeddings from every selected workspace, then
move them to `_trash`. -/
def processDeletionsTrace (s : Settings) (toDelete : List String)
    (remoteFiles : List (String × RemoteDoc)) : List Op :=
  if toDelete = [] then [] else
  let remotePathsToDelete := toDelete.filterMap (fun key =>
    (findRec remoteFiles key).map (fun remoteFile => s.remoteBaseFolder ++ "/" ++ remoteFile.name))
  s.selectedWorkspaces.flatMap (fun slug => removeDocumentsTrace slug remotePathsToDelete) ++
  moveFilesToTrashTrace remotePathsToDelete

/-- Embeds `clearRemoteArchives` (lines 307-325): one `remove-folder`
request for `_trash` and one for `_archive`. -/
def clearRemoteArchivesTrace : List Op :=
  [Op.removeFolder "_trash", Op.removeFolder "_archive"]

/-- Embeds `getRemoteFileList` (lines 335-359) as a pure result: a thrown
request yields `none` (the caller aborts); a 200 response yields the map
built by `Map.set` over the listed documents, keyed by
`getRemotePathKey(doc.title)`; any other status (the expected 404 for a
missing folder) yields the empty map. -/
def getRemoteFileListResult (env : Env) (s : Settings) :
    Option (List (String × RemoteDoc)) :=
  match env.listFolderResult with
  | Except.error _ => none
  | Except.ok (status, documents) =>
    if status = 200 then
      some (documents.foldl (fun fileMap doc =>
        mapSet fileMap (getRemotePathKey s.remoteBaseFolder doc.title) doc) [])
    else some []

/-- Embeds `syncFolders` of `src/main.ts` (lines 83-120) as its operation
trace: return immediately when no folder is configured; otherwise ensure
the base folder exists, list the remote folder (aborting when the request
throws), build the local inventory, compare, and run the three executors
followed by the optional archive purge. -/
def syncFoldersTrace (env : Env) (s : Settings) (allFiles : List VaultFile) : List Op :=
  if s.syncedFolders = [] then [] else
  [Op.createFolder s.remoteBaseFolder, Op.listFolder s.remoteBaseFolder] ++
  (match getRemoteFileListResult env s with
   | none => []
   | some remoteFiles =>
     let localFiles := getLocalFiles s.remoteBaseFolder s.syncedFolders allFiles
     processCreationsTrace env s (compareFiles localFiles remoteFiles).toCreate localFiles ++
     processUpdatesTrace env s (compareFiles localFiles remoteFiles).toUpdate localFiles remoteFiles ++
     processDeletionsTrace s (compareFiles localFiles remoteFiles).toDelete remoteFiles ++
     (if s.autoDelete then clearRemoteArchivesTrace else []))

/-- Disposal operations: embedding removal, file moves, folder removal —
everything that takes an existing remote document away from a workspace
or namespace. -/
def isDisposalOp : Op → Bool
  | Op.removeEmbeddings _ _ => true
  | Op.moveFiles _ => true
  | Op.removeFolder _ => true
  | _ => false

/-- Move-files operations. -/
def isMoveOp : Op → Bool
  | Op.moveFiles _ => true
  | _ => false

/-- Remote operations that mutate server state (everything but the
read-only folder listing). -/
def isRemoteWrite : Op → Bool
  | Op.listFolder _ => false
  | _ => true

/-- Document-level writes: uploads, embedding changes, moves and folder
removals — the operations of the create/update/delete/cleanup phases, as
opposed to the idempotent bootstrap `create-folder` and the read-only
listing. -/
def isDocumentWrite : Op → Bool
  | Op.uploadDocument _ _ => true
  | Op.addEmbedding _ _ => true
  | Op.removeEmbeddings _ _ => true
  | Op.moveFiles _ => true
  | Op.removeFolder _ => true
  | _ => false

/-! ## Concrete values for instantiations -/

/-- Settings with one selected workspace, one synced folder, default base
folder, policy `archive`, auto-delete off. -/
def sampleSettings : Settings :=
  { selectedWorkspaces := ["ws1"]
    syncedFolders := ["Projects"]
    autoDelete := false
    updateHandling := UpdateHandling.archive
    remoteBaseFolder := "Obsidian Vault" }

/-- Same settings with policy `keep-in-workspace`. -/
def sampleSettingsKeep : Settings :=
  { sampleSettings with updateHandling := UpdateHandling.keepInWorkspace }

/-- Same settings with no synced folders configured. -/
def sampleSettingsNoFolders : Settings :=
  { sampleSettings with syncedFolders := [] }

/-- Environment: listing succeeds with an empty document list, uploads
succeed and report one stored document name. -/
def envOk : Env :=
  { listFolderResult := Except.ok (200, [])
    uploadOutcome := fun _ => UploadOutcome.response true true ["up.json"] }

/-- Environment whose listing request throws (transport error). -/
def envListThrown : Env :=
  { listFolderResult := Except.error ()
    uploadOutcome := fun _ => UploadOutcome.response true true ["up.json"] }

/-- Environment whose listing request yields a 404 (missing folder). -/
def envListMissing : Env :=
  { listFolderResult := Except.ok (404, [])
    uploadOutcome := fun _ => UploadOutcome.response true true ["up.json"] }

/-- Environment whose upload request responds with `success: false`. -/
def envUploadFailed : Env :=
  { listFolderResult := Except.ok (200, [])
    uploadOutcome := fun _ => UploadOutcome.response false false [] }

/-- One-entry local inventory whose file is strictly newer than
`sampleRemoteDoc`. -/
def sampleLocalFiles : List (String × LocalRec) :=
  [("Obsidian Vault/Projects_-_a.md", { path := "Projects/a.md", mtime := 200 })]

/-- Remote counterpart of the entry of `sampleLocalFiles`, published at an
older timestamp. -/
def sampleRemoteDoc : RemoteDoc :=
  { title := "Projects_-_a.md", name := "projects-a.json", publishedTime := 100 }

/-- One-entry remote inventory holding `sampleRemoteDoc`. -/
def sampleRemoteFiles : List (String × RemoteDoc) :=
  [("Obsidian Vault/Projects_-_a.md", sampleRemoteDoc)]

/-- Local inventory whose single entry carries the same timestamp as
`tieRemoteFiles` (tie-break instantiation). -/
def tieLocalFiles : List (String × LocalRec) :=
  [("Obsidian Vault/a.md", { path := "a.md", mtime := 100 })]

/-- Remote inventory whose single entry carries the same timestamp as
`tieLocalFiles`. -/
def tieRemoteFiles : List (String × RemoteDoc) :=
  [("Obsidian Vault/a.md", { title := "a.md", name := "a.json", publishedTime := 100 })]

/-- Two-entry local inventory. -/
def permLocalA : List (String × LocalRec) :=
  [("k1", { path := "k1.md", mtime := 200 }), ("k2", { path := "k2.md", mtime := 50 })]

/-- The same two entries in the opposite order. -/
def permLocalB : List (String × LocalRec) :=
  [("k2", { path := "k2.md", mtime := 50 }), ("k1", { path := "k1.md", mtime := 200 })]

/-- One-entry remote inventory matching the first key of `permLocalA`. -/
def permRemote : List (String × RemoteDoc) :=
  [("k1", { title := "k1", name := "k1.json", publishedTime := 100 })]

/-- The vault file used to instantiate the eligibility theorem. -/
def sampleVaultFile : VaultFile :=
  { path := "Projects/x.md", mtime := 100 }

/-! ## Lemmas -/

theorem mangleChar_ne_nil (c : Char) : mangleChar c ≠ [] := by
  unfold mangleChar
  split <;> simp

theorem slash_not_mem_mangleChar (c : Char) : '/' ∉ mangleChar c := by
  unfold mangleChar
  by_cases hc : c = '/'
  · simp [hc]
  · simp [hc]
    exact fun h => hc h.symm

theorem slash_not_mem_mangleChars (cs : List Char) : '/' ∉ mangleChars cs := by
  induction cs with
  | nil => simp [mangleChars]
  | cons c cs ih =>
    intro h
    rcases List.mem_append.mp h with h1 | h2
    · exact slash_not_mem_mangleChar c h1
    · exact ih h2

theorem mangleChars_inj (as : List Char) : ∀ bs : List Char, '_' ∉ as → '_' ∉ bs →
    mangleChars as = mangleChars bs → as = bs := by
  induction as with
  | nil =>
    intro bs _ _ h
    cases bs with
    | nil => rfl
    | cons b bs =>
      exfalso
      have h' : ([] : List Char) = mangleChar b ++ mangleChars bs := h
      cases hcb : mangleChar b with
      | nil => exact mangleChar_ne_nil b hcb
      | cons x xs =>
        rw [hcb] at h'
        simp at h'
  | cons a as ih =>
    intro bs ha hb h
    cases bs with
    | nil =>
      exfalso
      have h' : mangleChar a ++ mangleChars as = ([] : List Char) := h
      cases hca : mangleChar a with
      | nil => exact mangleChar_ne_nil a hca
      | cons x xs =>
        rw [hca] at h'
        simp at h'
    | cons b bs =>
      have ha' : '_' ∉ as := fun m => ha (List.mem_cons_of_mem _ m)
      have hb' : '_' ∉ bs := fun m => hb (List.mem_cons_of_mem _ m)
      have haa : a ≠ '_' := fun e => ha (e ▸ List.mem_cons_self a as)
      have hbb : b ≠ '_' := fun e => hb (e ▸ List.mem_cons_self b bs)
      have h' : mangleChar a ++ mangleChars as = mangleChar b ++ mangleChars bs := h
      by_cases hA : a = '/' <;> by_cases hB : b = '/'
      · subst hA
        subst hB
        simp [mangleChar] at h'
        rw [ih bs ha' hb' h']
      · subst hA
        exfalso
        simp [mangleChar, hB] at h'
        exact hbb h'.1.symm
      · subst hB
        exfalso
        simp [mangleChar, hA] at h'
        exact haa h'.1
      · simp [mangleChar, hA, hB] at h'
        rw [h'.1, ih bs ha' hb' h'.2]

theorem string_eq_of_data_eq {a b : String} (h : a.data = b.data) : a = b := by
  cases a
  cases b
  exact congrArg String.mk h

theorem findRec_eq_none {β : Type} (m : List (String × β)) (k : String) :
    findRec m k = none ↔ k ∉ keys m := by
  induction m with
  | nil => simp [findRec, keys]
  | cons kv rest ih =>
    simp only [findRec, keys, List.map_cons, List.mem_cons]
    by_cases hk : kv.1 = k
    · simp [hk]
    · rw [if_neg hk, ih]
      simp only [keys]
      constructor
      · intro hnone h
        rcases h with h1 | h2
        · exact hk h1.symm
        · exact hnone h2
      · exact fun hno hm => hno (Or.inr hm)

theorem mem_of_findRec_eq_some {β : Type} {m : List (String × β)} {k : String} {v : β}
    (h : findRec m k = some v) : (k, v) ∈ m := by
  induction m with
  | nil => simp [findRec] at h
  | cons kv rest ih =>
    by_cases hk : kv.1 = k
    · simp [findRec, hk] at h
      have hkv : kv = (k, v) := by
        cases kv
        simp_all
      rw [hkv]
      exact List.mem_cons_self _ _
    · simp [findRec, hk] at h
      exact List.mem_cons_of_mem _ (ih h)

theorem findRec_isSome_of_mem {β : Type} {m : List (String × β)} {k : String} {v : β}
    (h : (k, v) ∈ m) : (findRec m k).isSome := by
  induction m with
  | nil => simp at h
  | cons kv rest ih =>
    rcases List.mem_cons.mp h with h1 | h2
    · simp [findRec, ← h1]
    · by_cases hk : kv.1 = k
      · simp [findRec, hk]
      · simp [findRec, hk]
        exact ih h2

theorem mem_keys_iff_findRec_isSome {β : Type} (m : List (String × β)) (k : String) :
    k ∈ keys m ↔ (findRec m k).isSome := by
  constructor
  · intro h
    rcases List.mem_map.mp h with ⟨kv, hkv, hfst⟩
    exact findRec_isSome_of_mem (m := m) (v := kv.2) (by rw [← hfst]; exact hkv)
  · intro h
    by_contra hk
    rw [← findRec_eq_none m k] at hk
    rw [hk] at h
    simp at h

theorem findRec_eq_some_of_mem_nodup {β : Type} {m : List (String × β)} {k : String} {v : β}
    (hn : (keys m).Nodup) (h : (k, v) ∈ m) : findRec m k = some v := by
  induction m with
  | nil => simp at h
  | cons kv rest ih =>
    have hn' : (keys rest).Nodup := (List.nodup_cons.mp hn).2
    rcases List.mem_cons.mp h with h1 | h2
    · rw [← h1]
      simp [findRec]
    · by_cases hk : kv.1 = k
      · exfalso
        have : k ∈ keys rest := List.mem_map.mpr ⟨(k, v), h2, rfl⟩
        exact (List.nodup_cons.mp hn).1 (hk ▸ this)
      · simp [findRec, hk]
        exact ih hn' h2

theorem findRec_perm {β : Type} {m m' : List (String × β)}
    (hn : (keys m).Nodup) (hp : m.Perm m') (k : String) :
    findRec m k = findRec m' k := by
  have hn' : (keys m').Nodup := ((hp.map Prod.fst).nodup_iff).mp hn
  cases hfr : findRec m k with
  | none =>
    have : k ∉ keys m' := by
      intro hmem
      have : k ∈ keys m := ((hp.map Prod.fst).mem_iff).mpr hmem
      exact ((findRec_eq_none m k).mp hfr) this
    exact ((findRec_eq_none m' k).mpr this).symm
  | some v =>
    have hmem : (k, v) ∈ m' := hp.mem_iff.mp (mem_of_findRec_eq_some hfr)
    exact (findRec_eq_some_of_mem_nodup hn' hmem).symm

theorem mapSet_of_not_mem {β : Type} (m : List (String × β)) (k : String) (v : β)
    (h : k ∉ keys m) : mapSet m k v = m ++ [(k, v)] := by
  unfold mapSet
  rw [(findRec_eq_none m k).mpr h]
  simp

theorem updatePred_eq_true_iff (remoteFiles : List (String × RemoteDoc))
    (kv : String × LocalRec) :
    updatePred remoteFiles kv = true ↔
      ∃ remoteFile, findRec remoteFiles kv.1 = some remoteFile ∧
        remoteFile.publishedTime < kv.2.mtime := by
  unfold updatePred
  cases hfr : findRec remoteFiles kv.1 with
  | none => simp
  | some rf => simp

theorem mem_toCreate_iff (localFiles : List (String × LocalRec))
    (remoteFiles : List (String × RemoteDoc)) (k : String) :
    k ∈ (compareFiles localFiles remoteFiles).toCreate ↔
      k ∈ keys localFiles ∧ findRec remoteFiles k = none := by
  unfold compareFiles
  simp only [List.mem_map, List.mem_filter]
  constructor
  · rintro ⟨kv, ⟨hmem, hpred⟩, hfst⟩
    subst hfst
    refine ⟨List.mem_map.mpr ⟨kv, hmem, rfl⟩, ?_⟩
    exact Option.isNone_iff_eq_none.mp hpred
  · rintro ⟨hkeys, hnone⟩
    rcases List.mem_map.mp hkeys with ⟨kv, hmem, hfst⟩
    refine ⟨kv, ⟨hmem, ?_⟩, hfst⟩
    rw [hfst, hnone]
    rfl

theorem mem_toDelete_iff (localFiles : List (String × LocalRec))
    (remoteFiles : List (String × RemoteDoc)) (k : String) :
    k ∈ (compareFiles localFiles remoteFiles).toDelete ↔
      k ∈ keys remoteFiles ∧ findRec localFiles k = none := by
  unfold compareFiles
  simp only [List.mem_map, List.mem_filter]
  constructor
  · rintro ⟨kv, ⟨hmem, hpred⟩, hfst⟩
    subst hfst
    refine ⟨List.mem_map.mpr ⟨kv, hmem, rfl⟩, ?_⟩
    exact Option.isNone_iff_eq_none.mp hpred
  · rintro ⟨hkeys, hnone⟩
    rcases List.mem_map.mp hkeys with ⟨kv, hmem, hfst⟩
    refine ⟨kv, ⟨hmem, ?_⟩, hfst⟩
    rw [hfst, hnone]
    rfl

theorem mem_toUpdate_elim {localFiles : List (String × LocalRec)}
    {remoteFiles : List (String × RemoteDoc)} {k : String}
    (h : k ∈ (compareFiles localFiles remoteFiles).toUpdate) :
    ∃ localFile remoteFile, (k, localFile) ∈ localFiles ∧
      findRec remoteFiles k = some remoteFile ∧
      remoteFile.publishedTime < localFile.mtime := by
  unfold compareFiles at h
  simp only [List.mem_map, List.mem_filter] at h
  rcases h with ⟨kv, ⟨hmem, hpred⟩, hfst⟩
  rcases (updatePred_eq_true_iff remoteFiles kv).mp hpred with ⟨rf, hfr, hlt⟩
  subst hfst
  exact ⟨kv.2, rf, hmem, hfr, hlt⟩

theorem mem_toUpdate_iff_nodup {localFiles : List (String × LocalRec)}
    {remoteFiles : List (String × RemoteDoc)} {k : String}
    (hn : (keys localFiles).Nodup) :
    k ∈ (compareFiles localFiles remoteFiles).toUpdate ↔
      ∃ localFile remoteFile, findRec localFiles k = some localFile ∧
        findRec remoteFiles k = some remoteFile ∧
        remoteFile.publishedTime < localFile.mtime := by
  constructor
  · intro h
    rcases mem_toUpdate_elim h with ⟨lf, rf, hmem, hfr, hlt⟩
    exact ⟨lf, rf, findRec_eq_some_of_mem_nodup hn hmem, hfr, hlt⟩
  · rintro ⟨lf, rf, hfl, hfr, hlt⟩
    unfold compareFiles
    simp only [List.mem_map, List.mem_filter]
    refine ⟨(k, lf), ⟨mem_of_findRec_eq_some hfl, ?_⟩, rfl⟩
    exact (updatePred_eq_true_iff remoteFiles (k, lf)).mpr ⟨rf, hfr, hlt⟩

theorem uploadFileTrace_not_disposal (env : Env) (s : Settings) (workspaces : List String)
    (filePath : String) :
    ∀ op ∈ uploadFileTrace env s workspaces filePath, isDisposalOp op = false := by
  intro op hop
  unfold uploadFileTrace at hop
  rcases List.mem_append.mp hop with h1 | h2
  · rcases List.mem_cons.mp h1 with h | h
    · rw [h]; rfl
    · rcases List.mem_cons.mp h with h' | h'
      · rw [h']; rfl
      · simp at h'
  · split at h2
    · simp at h2
    · split at h2
      · split at h2
        · simp at h2
        · rcases List.mem_map.mp h2 with ⟨slug, _, hop'⟩
          rw [← hop']; rfl
      · simp at h2

theorem isMoveOp_eq_false_of_not_disposal {op : Op} (h : isDisposalOp op = false) :
    isMoveOp op = false := by
  cases op <;> first | rfl | exact h

theorem isDocumentWrite_eq_true_of_disposal {op : Op} (h : isDisposalOp op = true) :
    isDocumentWrite op = true := by
  cases op <;> first | rfl | exact absurd h (by simp [isDisposalOp])

theorem flatMap_removeDocumentsTrace (workspaces : List String) (documentPaths : List String)
    (h : documentPaths ≠ []) :
    workspaces.flatMap (fun slug => removeDocumentsTrace slug documentPaths) =
      workspaces.map (fun slug => Op.removeEmbeddings slug documentPaths) := by
  induction workspaces with
  | nil => rfl
  | cons w ws ih =>
    rw [List.flatMap_cons, ih]
    simp [removeDocumentsTrace, h]

theorem updatePairs_nil (s : Settings) (localFiles : List (String × LocalRec))
    (remoteFiles : List (String × RemoteDoc)) :
    updatePairs s [] localFiles remoteFiles = [] := rfl

theorem compareFiles_empty_remote (localFiles : List (String × LocalRec)) :
    compareFiles localFiles [] =
      { toCreate := keys localFiles, toUpdate := [], toDelete := [] } := by
  unfold compareFiles
  refine congrArg₂ (fun a b => CompareResult.mk a b []) ?_ ?_
  · rw [show (fun kv : String × LocalRec => (findRec ([] : List (String × RemoteDoc)) kv.1).isNone) = fun _ => true from rfl]
    rw [List.filter_true]
    rfl
  · rw [show (fun kv : String × LocalRec => updatePred [] kv) = fun _ => false from rfl]
    rw [List.filter_false]
    rfl

theorem isInSyncedFolder_iff (folders : List String) (path : String) :
    isInSyncedFolder folders path = true ↔
      ∃ folder ∈ folders, folder = "." ∨ strStartsWith path (folder ++ "/") = true := by
  unfold isInSyncedFolder
  rw [List.any_eq_true]
  constructor
  · rintro ⟨folder, hmem, hpred⟩
    rcases Bool.or_eq_true_iff.mp hpred with h | h
    · exact ⟨folder, hmem, Or.inl (by simpa using h)⟩
    · exact ⟨folder, hmem, Or.inr h⟩
  · rintro ⟨folder, hmem, h | h⟩
    · exact ⟨folder, hmem, Bool.or_eq_true_iff.mpr (Or.inl (by simpa using h))⟩
    · exact ⟨folder, hmem, Bool.or_eq_true_iff.mpr (Or.inr h)⟩

theorem getLocalFilesAux_append (remoteBaseFolder : String) (syncedFolders : List String)
    (files : List VaultFile) :
    ∀ m : List (String × LocalRec),
      (∀ f ∈ files, localKeyOf remoteBaseFolder f ∉ keys m) →
      (files.map (localKeyOf remoteBaseFolder)).Nodup →
      getLocalFilesAux remoteBaseFolder syncedFolders files m =
        m ++ (files.filter (fun f => isInSyncedFolder syncedFolders f.path)).map
          (fun f => (localKeyOf remoteBaseFolder f, localRecOf f)) := by
  induction files with
  | nil => intro m _ _; simp [getLocalFilesAux]
  | cons f rest ih =>
    intro m hfresh hnodup
    have hfreshf : localKeyOf remoteBaseFolder f ∉ keys m :=
      hfresh f (List.mem_cons_self _ _)
    have hnodup' : (rest.map (localKeyOf remoteBaseFolder)).Nodup :=
      (List.nodup_cons.mp hnodup).2
    have hnotrest : localKeyOf remoteBaseFolder f ∉ rest.map (localKeyOf remoteBaseFolder) :=
      (List.nodup_cons.mp hnodup).1
    have hstep0 : getLocalFilesAux remoteBaseFolder syncedFolders (f :: rest) m =
        getLocalFilesAux remoteBaseFolder syncedFolders rest
          (if isInSyncedFolder syncedFolders f.path then
            mapSet m (localKeyOf remoteBaseFolder f) (localRecOf f)
          else m) := rfl
    by_cases he : isInSyncedFolder syncedFolders f.path = true
    · rw [hstep0, if_pos he, mapSet_of_not_mem _ _ _ hfreshf,
        ih (m ++ [(localKeyOf remoteBaseFolder f, localRecOf f)]) ?_ hnodup']
      · simp [List.filter_cons, he, List.append_assoc]
      · intro g hg
        rw [keys, List.map_append]
        intro hmem
        rcases List.mem_append.mp hmem with h1 | h2
        · exact hfresh g (List.mem_cons_of_mem _ hg) h1
        · simp at h2
          exact hnotrest (h2 ▸ List.mem_map.mpr ⟨g, hg, rfl⟩)
    · rw [hstep0, if_neg he, ih m (fun g hg => hfresh g (List.mem_cons_of_mem _ hg)) hnodup']
      simp [List.filter_cons, he]

theorem getLocalFiles_eq_filterMap (remoteBaseFolder : String) (syncedFolders : List String)
    (allFiles : List VaultFile)
    (hkeys : (allFiles.map (localKeyOf remoteBaseFolder)).Nodup) :
    getLocalFiles remoteBaseFolder syncedFolders allFiles =
      (allFiles.filter (fun f => isInSyncedFolder syncedFolders f.path)).map
        (fun f => (localKeyOf remoteBaseFolder f, localRecOf f)) := by
  unfold getLocalFiles
  rw [getLocalFilesAux_append remoteBaseFolder syncedFolders allFiles []
    (fun f _ => by simp [keys]) hkeys]
  rfl

/-! ## Claims -/

/-- Claim C1, counterexample: `getMangledFileName` is not injective on all
valid local vault paths.  The distinct paths `a/b` and `a_-_b` mangle to
the same name, and the second conjunct shows that even two distinct paths
in which the sentinel `_-_` never occurs as a substring collide. -/
theorem mangled_name_collision_counterexample :
    (getMangledFileName "a/b" = getMangledFileName "a_-_b" ∧ ("a/b" : String) ≠ "a_-_b") ∧
    (getMangledFileName "a_-/b" = getMangledFileName "a/-_b" ∧ ("a_-/b" : String) ≠ "a/-_b" ∧
      ¬ ['_', '-', '_'] <:+: "a_-/b".data ∧ ¬ ['_', '-', '_'] <:+: "a/-_b".data) := by
  refine ⟨⟨by decide, by decide⟩, by decide, by decide, by decide, by decide⟩

/-- Claim C1 (amended): the result of `getMangledFileName` contains no
path-separator character, and the function is injective on paths that
contain no underscore; on arbitrary paths it is not injective (see the
counterexample). -/
theorem getMangledFileName_inj_of_no_underscore (a b p : String)
    (ha : '_' ∉ a.data) (hb : '_' ∉ b.data) :
    (getMangledFileName a = getMangledFileName b → a = b) ∧
    '/' ∉ (getMangledFileName p).data := by
  constructor
  · intro h
    have hdata : mangleChars a.data = mangleChars b.data := congrArg String.data h
    exact string_eq_of_data_eq (mangleChars_inj a.data b.data ha hb hdata)
  · exact slash_not_mem_mangleChars p.data

/-- Witness for the C1 theorem at the concrete path `x/y`. -/
theorem getMangledFileName_inj_witness :
    '_' ∉ ("x/y" : String).data ∧ '_' ∉ ("x/y" : String).data ∧
    ((getMangledFileName "x/y" = getMangledFileName "x/y" → ("x/y" : String) = "x/y") ∧
      '/' ∉ (getMangledFileName "x/y").data) :=
  ⟨by decide, by decide,
    getMangledFileName_inj_of_no_underscore "x/y" "x/y" "x/y" (by decide) (by decide)⟩

/-- Claim C2 (confirmed): for every pair of inventories, `toCreate` is
exactly the keys present only locally, `toDelete` exactly the keys present
only remotely, `toUpdate` a subset of the keys present on both sides; the
three sets are pairwise disjoint and, together with the implicit unchanged
class (keys on both sides not in `toUpdate`), they cover exactly
`keys(local) ∪ keys(remote)`. -/
theorem compareFiles_partition (localFiles : List (String × LocalRec))
    (remoteFiles : List (String × RemoteDoc)) (k : String) :
    (k ∈ (compareFiles localFiles remoteFiles).toCreate ↔
      k ∈ keys localFiles ∧ k ∉ keys remoteFiles) ∧
    (k ∈ (compareFiles localFiles remoteFiles).toDelete ↔
      k ∈ keys remoteFiles ∧ k ∉ keys localFiles) ∧
    (k ∈ (compareFiles localFiles remoteFiles).toUpdate →
      k ∈ keys localFiles ∧ k ∈ keys remoteFiles) ∧
    ¬(k ∈ (compareFiles localFiles remoteFiles).toCreate ∧
      k ∈ (compareFiles localFiles remoteFiles).toUpdate) ∧
    ¬(k ∈ (compareFiles localFiles remoteFiles).toCreate ∧
      k ∈ (compareFiles localFiles remoteFiles).toDelete) ∧
    ¬(k ∈ (compareFiles localFiles remoteFiles).toUpdate ∧
      k ∈ (compareFiles localFiles remoteFiles).toDelete) ∧
    ((k ∈ keys localFiles ∨ k ∈ keys remoteFiles) ↔
      (k ∈ (compareFiles localFiles remoteFiles).toCreate ∨
       k ∈ (compareFiles localFiles remoteFiles).toUpdate ∨
       k ∈ (compareFiles localFiles remoteFiles).toDelete ∨
       (k ∈ keys localFiles ∧ k ∈ keys remoteFiles ∧
        k ∉ (compareFiles localFiles remoteFiles).toUpdate))) := by
  have hCr : k ∈ (compareFiles localFiles remoteFiles).toCreate ↔
      k ∈ keys localFiles ∧ k ∉ keys remoteFiles := by
    rw [mem_toCreate_iff, findRec_eq_none]
  have hDr : k ∈ (compareFiles localFiles remoteFiles).toDelete ↔
      k ∈ keys remoteFiles ∧ k ∉ keys localFiles := by
    rw [mem_toDelete_iff, findRec_eq_none]
  have hU : k ∈ (compareFiles localFiles remoteFiles).toUpdate →
      k ∈ keys localFiles ∧ k ∈ keys remoteFiles := by
    intro h
    rcases mem_toUpdate_elim h with ⟨lf, rf, hmem, hfr, _⟩
    refine ⟨List.mem_map.mpr ⟨(k, lf), hmem, rfl⟩, ?_⟩
    exact (mem_keys_iff_findRec_isSome remoteFiles k).mpr (by rw [hfr]; rfl)
  refine ⟨hCr, hDr, hU, ?_, ?_, ?_, ?_⟩
  · rintro ⟨h1, h2⟩
    exact (hCr.mp h1).2 (hU h2).2
  · rintro ⟨h1, h2⟩
    exact (hCr.mp h1).2 (hDr.mp h2).1
  · rintro ⟨h1, h2⟩
    exact (hDr.mp h2).2 (hU h1).1
  · constructor
    · intro hor
      by_cases hl : k ∈ keys localFiles
      · by_cases hr : k ∈ keys remoteFiles
        · by_cases hu : k ∈ (compareFiles localFiles remoteFiles).toUpdate
          · exact Or.inr (Or.inl hu)
          · exact Or.inr (Or.inr (Or.inr ⟨hl, hr, hu⟩))
        · exact Or.inl (hCr.mpr ⟨hl, hr⟩)
      · rcases hor with h | h
        · exact absurd h hl
        · exact Or.inr (Or.inr (Or.inl (hDr.mpr ⟨h, hl⟩)))
    · rintro (h | h | h | h)
      · exact Or.inl (hCr.mp h).1
      · exact Or.inl (hU h).1
      · exact Or.inr (hDr.mp h).1
      · exact Or.inl h.1

/-- Claim C3, counterexample: the claim states that a folder entry `F`
also matches a path equal to `F`, but the code only matches paths starting
with `F + "/"`: with `syncedFolders = ["Projects/x.md"]` the file at path
`Projects/x.md` satisfies the claim's matching relation yet is excluded
from the local inventory. -/
theorem synced_folder_equality_counterexample :
    claimFolderMatches "Projects/x.md" "Projects/x.md" = true ∧
    isInSyncedFolder ["Projects/x.md"] "Projects/x.md" = false ∧
    getLocalFiles "Obsidian Vault" ["Projects/x.md"]
      [{ path := "Projects/x.md", mtime := 100 }] = [] := by
  refine ⟨by decide, by decide, by decide⟩

/-- Claim C3 (amended): provided the vault files map to pairwise distinct
mangled keys, `getLocalFiles` includes a file exactly when some configured
folder matches it, where `"."` matches every file and any other folder `F`
matches exactly the paths prefixed by `F + "/"` (a path equal to `F` is
not matched — see the counterexample); in particular with
`syncedFolders = ["Projects"]`, `Projects/x.md` and `Projects/Sub/x.md`
are eligible and `ProjectsArchive/x.md` is not. -/
theorem getLocalFiles_eligibility (remoteBaseFolder : String) (syncedFolders : List String)
    (allFiles : List VaultFile)
    (hkeys : (allFiles.map (localKeyOf remoteBaseFolder)).Nodup)
    (f : VaultFile) (hf : f ∈ allFiles) (p : String) :
    ((∃ e ∈ getLocalFiles remoteBaseFolder syncedFolders allFiles, (e.2).path = f.path) ↔
      isInSyncedFolder syncedFolders f.path = true) ∧
    (isInSyncedFolder syncedFolders p = true ↔
      ∃ folder ∈ syncedFolders, folder = "." ∨ strStartsWith p (folder ++ "/") = true) ∧
    isInSyncedFolder ["Projects"] "Projects/x.md" = true ∧
    isInSyncedFolder ["Projects"] "Projects/Sub/x.md" = true ∧
    isInSyncedFolder ["Projects"] "ProjectsArchive/x.md" = false := by
  refine ⟨?_, isInSyncedFolder_iff syncedFolders p, by decide, by decide, by decide⟩
  rw [getLocalFiles_eq_filterMap remoteBaseFolder syncedFolders allFiles hkeys]
  constructor
  · rintro ⟨e, he, hpath⟩
    rcases List.mem_map.mp he with ⟨g, hg, hge⟩
    have hgf := List.mem_filter.mp hg
    have hgp : g.path = f.path := by
      rw [← hge] at hpath
      exact hpath
    rw [← hgp]
    exact hgf.2
  · intro he
    refine ⟨(localKeyOf remoteBaseFolder f, localRecOf f), ?_, rfl⟩
    exact List.mem_map.mpr ⟨f, List.mem_filter.mpr ⟨hf, he⟩, rfl⟩

/-- Witness for the C3 theorem with one vault file under `Projects`. -/
theorem getLocalFiles_eligibility_witness :
    ([sampleVaultFile].map (localKeyOf "Obsidian Vault")).Nodup ∧
    sampleVaultFile ∈ [sampleVaultFile] ∧
    (((∃ e ∈ getLocalFiles "Obsidian Vault" ["Projects"] [sampleVaultFile],
        (e.2).path = sampleVaultFile.path) ↔
      isInSyncedFolder ["Projects"] sampleVaultFile.path = true) ∧
    (isInSyncedFolder ["Projects"] "Projects/x.md" = true ↔
      ∃ folder ∈ ["Projects"], folder = "." ∨
        strStartsWith "Projects/x.md" (folder ++ "/") = true) ∧
    isInSyncedFolder ["Projects"] "Projects/x.md" = true ∧
    isInSyncedFolder ["Projects"] "Projects/Sub/x.md" = true ∧
    isInSyncedFolder ["Projects"] "ProjectsArchive/x.md" = false) :=
  ⟨by decide, by decide,
    getLocalFiles_eligibility "Obsidian Vault" ["Projects"] [sampleVaultFile]
      (by decide) sampleVaultFile (by decide) "Projects/x.md"⟩

/-- Claim C4, counterexample: on a transport error during the remote
listing the pass does abort, but not with zero remote writes — the
idempotent bootstrap `create-folder` request for the base folder is issued
before the listing, so the aborted pass has already performed one remote
write. -/
theorem sync_listing_error_write_counterexample :
    envListThrown.listFolderResult = Except.error () ∧
    syncFoldersTrace envListThrown sampleSettings [] =
      [Op.createFolder "Obsidian Vault", Op.listFolder "Obsidian Vault"] ∧
    (syncFoldersTrace envListThrown sampleSettings []).filter isRemoteWrite =
      [Op.createFolder "Obsidian Vault"] := by
  refine ⟨rfl, by decide, by decide⟩

/-- Claim C4 (amended): a missing remote namespace (non-200 listing
response) yields an empty remote inventory and the pass proceeds — every
local file is classified as a creation, nothing is updated or deleted —
while a thrown listing request aborts the pass before any document-level
write (no upload, embedding change, move or folder removal); the only
remote write already performed at that point is the bootstrap
`create-folder` for the base folder. -/
theorem syncFolders_listing_outcomes (env : Env) (s : Settings) (allFiles : List VaultFile)
    (hsf : s.syncedFolders ≠ []) :
    (∀ e : Unit, env.listFolderResult = Except.error e →
      syncFoldersTrace env s allFiles =
        [Op.createFolder s.remoteBaseFolder, Op.listFolder s.remoteBaseFolder] ∧
      (syncFoldersTrace env s allFiles).filter isDocumentWrite = []) ∧
    (∀ status documents, env.listFolderResult = Except.ok (status, documents) →
      status ≠ 200 →
      getRemoteFileListResult env s = some [] ∧
      (compareFiles (getLocalFiles s.remoteBaseFolder s.syncedFolders allFiles) []).toCreate =
        keys (getLocalFiles s.remoteBaseFolder s.syncedFolders allFiles) ∧
      (compareFiles (getLocalFiles s.remoteBaseFolder s.syncedFolders allFiles) []).toUpdate = [] ∧
      (compareFiles (getLocalFiles s.remoteBaseFolder s.syncedFolders allFiles) []).toDelete = [] ∧
      syncFoldersTrace env s allFiles =
        [Op.createFolder s.remoteBaseFolder, Op.listFolder s.remoteBaseFolder] ++
        processCreationsTrace env s
          (keys (getLocalFiles s.remoteBaseFolder s.syncedFolders allFiles))
          (getLocalFiles s.remoteBaseFolder s.syncedFolders allFiles) ++
        (if s.autoDelete then clearRemoteArchivesTrace else [])) := by
  constructor
  · intro e herr
    have hres : getRemoteFileListResult env s = none := by
      unfold getRemoteFileListResult
      rw [herr]
    have htrace : syncFoldersTrace env s allFiles =
        [Op.createFolder s.remoteBaseFolder, Op.listFolder s.remoteBaseFolder] := by
      unfold syncFoldersTrace
      rw [if_neg hsf, hres]
      rfl
    exact ⟨htrace, by rw [htrace]; rfl⟩
  · intro status documents hok hstatus
    have hres : getRemoteFileListResult env s = some [] := by
      unfold getRemoteFileListResult
      rw [hok]
      simp [hstatus]
    have hcmp := compareFiles_empty_remote
      (getLocalFiles s.remoteBaseFolder s.syncedFolders allFiles)
    refine ⟨hres, by rw [hcmp], by rw [hcmp], by rw [hcmp], ?_⟩
    have htrace : syncFoldersTrace env s allFiles =
        [Op.createFolder s.remoteBaseFolder, Op.listFolder s.remoteBaseFolder] ++
        (processCreationsTrace env s
          (compareFiles (getLocalFiles s.remoteBaseFolder s.syncedFolders allFiles) []).toCreate
          (getLocalFiles s.remoteBaseFolder s.syncedFolders allFiles) ++
         processUpdatesTrace env s
          (compareFiles (getLocalFiles s.remoteBaseFolder s.syncedFolders allFiles) []).toUpdate
          (getLocalFiles s.remoteBaseFolder s.syncedFolders allFiles) [] ++
         processDeletionsTrace s
          (compareFiles (getLocalFiles s.remoteBaseFolder s.syncedFolders allFiles) []).toDelete [] ++
         (if s.autoDelete then clearRemoteArchivesTrace else [])) := by
      unfold syncFoldersTrace
      rw [if_neg hsf, hres]
    rw [htrace, hcmp]
    rw [show processUpdatesTrace env s ([] : List String)
        (getLocalFiles s.remoteBaseFolder s.syncedFolders allFiles) [] = [] from rfl]
    rw [show processDeletionsTrace s ([] : List String) ([] : List (String × RemoteDoc)) = []
        from rfl]
    simp [List.append_assoc]

/-- Witness for the C4 theorem: concrete settings with a synced folder,
the environment whose listing throws, and an empty vault. -/
theorem syncFolders_listing_outcomes_witness :
    sampleSettings.syncedFolders ≠ [] ∧
    ((∀ e : Unit, envListThrown.listFolderResult = Except.error e →
      syncFoldersTrace envListThrown sampleSettings [] =
        [Op.createFolder sampleSettings.remoteBaseFolder,
         Op.listFolder sampleSettings.remoteBaseFolder] ∧
      (syncFoldersTrace envListThrown sampleSettings []).filter isDocumentWrite = []) ∧
    (∀ status documents,
      envListThrown.listFolderResult = Except.ok (status, documents) →
      status ≠ 200 →
      getRemoteFileListResult envListThrown sampleSettings = some [] ∧
      (compareFiles (getLocalFiles sampleSettings.remoteBaseFolder
        sampleSettings.syncedFolders []) []).toCreate =
        keys (getLocalFiles sampleSettings.remoteBaseFolder sampleSettings.syncedFolders []) ∧
      (compareFiles (getLocalFiles sampleSettings.remoteBaseFolder
        sampleSettings.syncedFolders []) []).toUpdate = [] ∧
      (compareFiles (getLocalFiles sampleSettings.remoteBaseFolder
        sampleSettings.syncedFolders []) []).toDelete = [] ∧
      syncFoldersTrace envListThrown sampleSettings [] =
        [Op.createFolder sampleSettings.remoteBaseFolder,
         Op.listFolder sampleSettings.remoteBaseFolder] ++
        processCreationsTrace envListThrown sampleSettings
          (keys (getLocalFiles sampleSettings.remoteBaseFolder sampleSettings.syncedFolders []))
          (getLocalFiles sampleSettings.remoteBaseFolder sampleSettings.syncedFolders []) ++
        (if sampleSettings.autoDelete then clearRemoteArchivesTrace else []))) :=
  ⟨by decide, syncFolders_listing_outcomes envListThrown sampleSettings [] (by decide)⟩

/-- Claim C5 (confirmed): a key present in both inventories is placed in
`toUpdate` exactly when the local modification time is strictly greater
than the remote published time, and on equal timestamps the key lands in
none of the three output sets. -/
theorem compareFiles_update_strict (localFiles : List (String × LocalRec))
    (remoteFiles : List (String × RemoteDoc)) (k : String)
    (localFile : LocalRec) (remoteDoc : RemoteDoc)
    (hn : (keys localFiles).Nodup)
    (hl : findRec localFiles k = some localFile)
    (hr : findRec remoteFiles k = some remoteDoc) :
    (k ∈ (compareFiles localFiles remoteFiles).toUpdate ↔
      remoteDoc.publishedTime < localFile.mtime) ∧
    (localFile.mtime = remoteDoc.publishedTime →
      k ∉ (compareFiles localFiles remoteFiles).toCreate ∧
      k ∉ (compareFiles localFiles remoteFiles).toUpdate ∧
      k ∉ (compareFiles localFiles remoteFiles).toDelete) := by
  have hiff := @mem_toUpdate_iff_nodup localFiles remoteFiles k hn
  have hmain : k ∈ (compareFiles localFiles remoteFiles).toUpdate ↔
      remoteDoc.publishedTime < localFile.mtime := by
    rw [hiff]
    constructor
    · rintro ⟨lf, rf, hl', hr', hlt⟩
      rw [hl] at hl'
      rw [hr] at hr'
      injection hl' with e1
      injection hr' with e2
      rw [e1, e2]
      exact hlt
    · intro hlt
      exact ⟨localFile, remoteDoc, hl, hr, hlt⟩
  refine ⟨hmain, ?_⟩
  intro heq
  refine ⟨?_, ?_, ?_⟩
  · intro hmem
    rcases (mem_toCreate_iff localFiles remoteFiles k).mp hmem with ⟨_, hnone⟩
    rw [hnone] at hr
    exact Option.noConfusion hr
  · intro hmem
    have hlt := hmain.mp hmem
    rw [heq] at hlt
    exact lt_irrefl _ hlt
  · intro hmem
    rcases (mem_toDelete_iff localFiles remoteFiles k).mp hmem with ⟨_, hnone⟩
    rw [hnone] at hl
    exact Option.noConfusion hl

/-- Witness for the C5 theorem at a key carrying equal timestamps on both
sides. -/
theorem compareFiles_update_strict_witness :
    (keys tieLocalFiles).Nodup ∧
    findRec tieLocalFiles "Obsidian Vault/a.md" = some { path := "a.md", mtime := 100 } ∧
    findRec tieRemoteFiles "Obsidian Vault/a.md" =
      some { title := "a.md", name := "a.json", publishedTime := 100 } ∧
    (("Obsidian Vault/a.md" ∈ (compareFiles tieLocalFiles tieRemoteFiles).toUpdate ↔
      (100 : Int) < 100) ∧
    ((100 : Int) = 100 →
      "Obsidian Vault/a.md" ∉ (compareFiles tieLocalFiles tieRemoteFiles).toCreate ∧
      "Obsidian Vault/a.md" ∉ (compareFiles tieLocalFiles tieRemoteFiles).toUpdate ∧
      "Obsidian Vault/a.md" ∉ (compareFiles tieLocalFiles tieRemoteFiles).toDelete)) :=
  ⟨by decide, by decide, by decide,
    compareFiles_update_strict tieLocalFiles tieRemoteFiles "Obsidian Vault/a.md"
      { path := "a.md", mtime := 100 } { title := "a.md", name := "a.json", publishedTime := 100 }
      (by decide) (by decide) (by decide)⟩

/-- Claim C6 (confirmed): under policy `archive`, the update phase first
issues all uploads of the new versions (a phase containing no disposal
operation), then one embeddings-delete per selected workspace for the old
remote paths, then exactly one move call — preceded by the bootstrap of
the `_archive` folder — placing every old document into the `_archive`
namespace; in particular no old version is removed before any new
upload. -/
theorem processUpdates_archive_sequencing (env : Env) (s : Settings) (toUpdate : List String)
    (localFiles : List (String × LocalRec)) (remoteFiles : List (String × RemoteDoc))
    (harch : s.updateHandling = UpdateHandling.archive)
    (hne : updatePairs s toUpdate localFiles remoteFiles ≠ []) :
    processUpdatesTrace env s toUpdate localFiles remoteFiles =
      ((updatePairs s toUpdate localFiles remoteFiles).map Prod.fst).flatMap
        (fun filePath => uploadFileTrace env s s.selectedWorkspaces filePath) ++
      s.selectedWorkspaces.map (fun slug =>
        Op.removeEmbeddings slug ((updatePairs s toUpdate localFiles remoteFiles).map Prod.snd)) ++
      [Op.createFolder "_archive",
       Op.moveFiles (((updatePairs s toUpdate localFiles remoteFiles).map Prod.snd).map
         (fun path => (path, "_archive/" ++ lastSegment path)))] ∧
    (∀ op ∈ ((updatePairs s toUpdate localFiles remoteFiles).map Prod.fst).flatMap
        (fun filePath => uploadFileTrace env s s.selectedWorkspaces filePath),
      isDisposalOp op = false) ∧
    (processUpdatesTrace env s toUpdate localFiles remoteFiles).filter isMoveOp =
      [Op.moveFiles (((updatePairs s toUpdate localFiles remoteFiles).map Prod.snd).map
        (fun path => (path, "_archive/" ++ lastSegment path)))] := by
  have htu : toUpdate ≠ [] := by
    intro h
    rw [h] at hne
    exact hne (updatePairs_nil s localFiles remoteFiles)
  have hpaths : (updatePairs s toUpdate localFiles remoteFiles).map Prod.snd ≠ [] := by
    intro h
    exact hne (List.map_eq_nil_iff.mp h)
  have hKeepNe : ¬ s.updateHandling = UpdateHandling.keepInWorkspace := by
    rw [harch]
    intro h
    exact UpdateHandling.noConfusion h
  have hDelNe : ¬ s.updateHandling = UpdateHandling.delete := by
    rw [harch]
    intro h
    exact UpdateHandling.noConfusion h
  have hupload : ∀ op ∈ ((updatePairs s toUpdate localFiles remoteFiles).map Prod.fst).flatMap
      (fun filePath => uploadFileTrace env s s.selectedWorkspaces filePath),
      isDisposalOp op = false := by
    intro op hop
    rcases List.mem_flatMap.mp hop with ⟨fp, _, hin⟩
    exact uploadFileTrace_not_disposal env s s.selectedWorkspaces fp op hin
  have htrace : processUpdatesTrace env s toUpdate localFiles remoteFiles =
      ((updatePairs s toUpdate localFiles remoteFiles).map Prod.fst).flatMap
        (fun filePath => uploadFileTrace env s s.selectedWorkspaces filePath) ++
      s.selectedWorkspaces.map (fun slug =>
        Op.removeEmbeddings slug ((updatePairs s toUpdate localFiles remoteFiles).map Prod.snd)) ++
      [Op.createFolder "_archive",
       Op.moveFiles (((updatePairs s toUpdate localFiles remoteFiles).map Prod.snd).map
         (fun path => (path, "_archive/" ++ lastSegment path)))] := by
    unfold processUpdatesTrace
    rw [if_neg htu, if_neg hKeepNe, if_pos harch, if_neg hDelNe]
    rw [flatMap_removeDocumentsTrace s.selectedWorkspaces _ hpaths]
    unfold moveFilesToArchiveTrace moveFilesToFolderTrace
    rw [if_neg hpaths]
    simp [List.append_assoc]
  refine ⟨htrace, hupload, ?_⟩
  rw [htrace, List.filter_append, List.filter_append]
  have h1 : (((updatePairs s toUpdate localFiles remoteFiles).map Prod.fst).flatMap
      (fun filePath => uploadFileTrace env s s.selectedWorkspaces filePath)).filter
        isMoveOp = [] := by
    rw [List.filter_eq_nil_iff]
    intro op hop
    rw [isMoveOp_eq_false_of_not_disposal (hupload op hop)]
    simp
  have h2 : (s.selectedWorkspaces.map (fun slug =>
      Op.removeEmbeddings slug ((updatePairs s toUpdate localFiles remoteFiles).map
        Prod.snd))).filter isMoveOp = [] := by
    rw [List.filter_eq_nil_iff]
    intro op hop
    rcases List.mem_map.mp hop with ⟨slug, _, hopeq⟩
    rw [← hopeq]
    simp [isMoveOp]
  rw [h1, h2]
  rfl

/-- Witness for the C6 theorem at a one-key update under policy
`archive`. -/
theorem processUpdates_archive_sequencing_witness :
    sampleSettings.updateHandling = UpdateHandling.archive ∧
    updatePairs sampleSettings ["Obsidian Vault/Projects_-_a.md"]
      sampleLocalFiles sampleRemoteFiles ≠ [] ∧
    (processUpdatesTrace envOk sampleSettings ["Obsidian Vault/Projects_-_a.md"]
        sampleLocalFiles sampleRemoteFiles =
      ((updatePairs sampleSettings ["Obsidian Vault/Projects_-_a.md"]
          sampleLocalFiles sampleRemoteFiles).map Prod.fst).flatMap
        (fun filePath => uploadFileTrace envOk sampleSettings
          sampleSettings.selectedWorkspaces filePath) ++
      sampleSettings.selectedWorkspaces.map (fun slug =>
        Op.removeEmbeddings slug ((updatePairs sampleSettings
          ["Obsidian Vault/Projects_-_a.md"] sampleLocalFiles sampleRemoteFiles).map
            Prod.snd)) ++
      [Op.createFolder "_archive",
       Op.moveFiles (((updatePairs sampleSettings ["Obsidian Vault/Projects_-_a.md"]
          sampleLocalFiles sampleRemoteFiles).map Prod.snd).map
         (fun path => (path, "_archive/" ++ lastSegment path)))] ∧
    (∀ op ∈ ((updatePairs sampleSettings ["Obsidian Vault/Projects_-_a.md"]
        sampleLocalFiles sampleRemoteFiles).map Prod.fst).flatMap
        (fun filePath => uploadFileTrace envOk sampleSettings
          sampleSettings.selectedWorkspaces filePath),
      isDisposalOp op = false) ∧
    (processUpdatesTrace envOk sampleSettings ["Obsidian Vault/Projects_-_a.md"]
        sampleLocalFiles sampleRemoteFiles).filter isMoveOp =
      [Op.moveFiles (((updatePairs sampleSettings ["Obsidian Vault/Projects_-_a.md"]
          sampleLocalFiles sampleRemoteFiles).map Prod.snd).map
        (fun path => (path, "_archive/" ++ lastSegment path)))]) :=
  ⟨rfl, by decide,
    processUpdates_archive_sequencing envOk sampleSettings
      ["Obsidian Vault/Projects_-_a.md"] sampleLocalFiles sampleRemoteFiles rfl (by decide)⟩

/-- Claim C7 (confirmed): `compareFiles` applied twice to the same pair of
inventories yields the same result, and its output sets depend only on
the inventories' contents, not on their iteration order: permuting the
entries of either inventory leaves membership in every output set
unchanged. -/
theorem compareFiles_deterministic (l1 l2 : List (String × LocalRec))
    (r1 r2 : List (String × RemoteDoc)) (k : String)
    (hln : (keys l1).Nodup) (hrn : (keys r1).Nodup)
    (hlp : l1.Perm l2) (hrp : r1.Perm r2) :
    compareFiles l1 r1 = compareFiles l1 r1 ∧
    (k ∈ (compareFiles l2 r2).toCreate ↔ k ∈ (compareFiles l1 r1).toCreate) ∧
    (k ∈ (compareFiles l2 r2).toUpdate ↔ k ∈ (compareFiles l1 r1).toUpdate) ∧
    (k ∈ (compareFiles l2 r2).toDelete ↔ k ∈ (compareFiles l1 r1).toDelete) := by
  have hln2 : (keys l2).Nodup := ((hlp.map Prod.fst).nodup_iff).mp hln
  have hfl : findRec l1 k = findRec l2 k := findRec_perm hln hlp k
  have hfr : findRec r1 k = findRec r2 k := findRec_perm hrn hrp k
  have hkl : k ∈ keys l2 ↔ k ∈ keys l1 := ((hlp.map Prod.fst).mem_iff).symm
  have hkr : k ∈ keys r2 ↔ k ∈ keys r1 := ((hrp.map Prod.fst).mem_iff).symm
  refine ⟨rfl, ?_, ?_, ?_⟩
  · rw [mem_toCreate_iff, mem_toCreate_iff, hkl, ← hfr]
  · rw [@mem_toUpdate_iff_nodup l2 r2 k hln2, @mem_toUpdate_iff_nodup l1 r1 k hln,
      ← hfl, ← hfr]
  · rw [mem_toDelete_iff, mem_toDelete_iff, hkr, ← hfl]

/-- Witness for the C7 theorem with a two-entry local inventory given in
both orders. -/
theorem compareFiles_deterministic_witness :
    (keys permLocalA).Nodup ∧ (keys permRemote).Nodup ∧
    permLocalA.Perm permLocalB ∧ permRemote.Perm permRemote ∧
    (compareFiles permLocalA permRemote = compareFiles permLocalA permRemote ∧
    ("k1" ∈ (compareFiles permLocalB permRemote).toCreate ↔
      "k1" ∈ (compareFiles permLocalA permRemote).toCreate) ∧
    ("k1" ∈ (compareFiles permLocalB permRemote).toUpdate ↔
      "k1" ∈ (compareFiles permLocalA permRemote).toUpdate) ∧
    ("k1" ∈ (compareFiles permLocalB permRemote).toDelete ↔
      "k1" ∈ (compareFiles permLocalA permRemote).toDelete)) :=
  ⟨by decide, by decide, by decide, by decide,
    compareFiles_deterministic permLocalA permLocalB permRemote permRemote "k1"
      (by decide) (by decide) (by decide) (by decide)⟩

/-- Claim C8 (confirmed): under policy `keep-in-workspace` the update
phase performs no disposal at all — its trace contains no embeddings
removal, no move and no folder removal, so the old documents stay in
place and stay attached. -/
theorem processUpdates_keep_frame (env : Env) (s : Settings) (toUpdate : List String)
    (localFiles : List (String × LocalRec)) (remoteFiles : List (String × RemoteDoc))
    (hk : s.updateHandling = UpdateHandling.keepInWorkspace) :
    ∀ op ∈ processUpdatesTrace env s toUpdate localFiles remoteFiles,
      isDisposalOp op = false := by
  intro op hop
  unfold processUpdatesTrace at hop
  by_cases htu : toUpdate = []
  · rw [if_pos htu] at hop
    simp at hop
  · rw [if_neg htu, if_pos hk, List.append_nil] at hop
    rcases List.mem_flatMap.mp hop with ⟨fp, _, hin⟩
    exact uploadFileTrace_not_disposal env s s.selectedWorkspaces fp op hin

/-- Witness for the C8 theorem at a one-key update under policy
`keep-in-workspace`. -/
theorem processUpdates_keep_frame_witness :
    sampleSettingsKeep.updateHandling = UpdateHandling.keepInWorkspace ∧
    (∀ op ∈ processUpdatesTrace envOk sampleSettingsKeep
        ["Obsidian Vault/Projects_-_a.md"] sampleLocalFiles sampleRemoteFiles,
      isDisposalOp op = false) :=
  ⟨rfl, processUpdates_keep_frame envOk sampleSettingsKeep
    ["Obsidian Vault/Projects_-_a.md"] sampleLocalFiles sampleRemoteFiles rfl⟩

/-- Claim C9 (confirmed): when the upload request of `uploadFile` fails —
thrown transport error, non-OK HTTP status, or a body with `success`
false — the trace of `uploadFile` contains no `addDocumentToWorkspace`
call (no embeddings-add operation): a document is attached to workspaces
only after its upload has succeeded. -/
theorem uploadFile_failure_no_attach (env : Env) (s : Settings) (workspaces : List String)
    (filePath : String)
    (hfail : uploadRequestFailed (env.uploadOutcome (getMangledFileName filePath)) = true) :
    ∀ op ∈ uploadFileTrace env s workspaces filePath,
      ∀ slug docPath, op ≠ Op.addEmbedding slug docPath := by
  intro op hop slug docPath heq
  subst heq
  unfold uploadFileTrace at hop
  rcases List.mem_append.mp hop with h1 | h2
  · rcases List.mem_cons.mp h1 with h | h
    · exact Op.noConfusion h
    · rcases List.mem_cons.mp h with h' | h'
      · exact Op.noConfusion h'
      · simp at h'
  · split at h2
    · simp at h2
    · rename_i ok success documents houtcome
      rw [houtcome] at hfail
      simp [uploadRequestFailed] at hfail
      split at h2
      · rename_i hok
        rcases hfail with h | h <;> simp [h] at hok
      · simp at h2

/-- Witness for the C9 theorem against the environment whose upload
responds with `success: false`. -/
theorem uploadFile_failure_no_attach_witness :
    uploadRequestFailed
      (envUploadFailed.uploadOutcome (getMangledFileName "Projects/a.md")) = true ∧
    (∀ op ∈ uploadFileTrace envUploadFailed sampleSettings ["ws1"] "Projects/a.md",
      ∀ slug docPath, op ≠ Op.addEmbedding slug docPath) :=
  ⟨by decide, uploadFile_failure_no_attach envUploadFailed sampleSettings ["ws1"]
    "Projects/a.md" (by decide)⟩

/-- Claim C10 (confirmed): with no synced folders configured,
`syncFolders` performs no remote operation at all — no bootstrap folder
creation, no listing, no uploads, moves, detaches or purges. -/
theorem syncFolders_no_config_no_ops (env : Env) (s : Settings) (allFiles : List VaultFile)
    (h : s.syncedFolders = []) :
    syncFoldersTrace env s allFiles = [] := by
  unfold syncFoldersTrace
  rw [if_pos h]

/-- Witness for the C10 theorem at concrete settings with an empty folder
list. -/
theorem syncFolders_no_config_no_ops_witness :
    sampleSettingsNoFolders.syncedFolders = [] ∧
    syncFoldersTrace envOk sampleSettingsNoFolders [sampleVaultFile] = [] :=
  ⟨rfl, syncFolders_no_config_no_ops envOk sampleSettingsNoFolders [sampleVaultFile] rfl⟩

end AnythingObsidian
